import Mathlib

/-!
# Verification of the yt-dlp GUI job-coordination core

Shallow embedding of the repository's core logic:

* `src/download_manager.py` — `DownloadWorker.run`, `DownloadWorker._parse_progress_line`,
  `DownloadWorker.cancel`, `DownloadManager.start_download`;
* `src/proofreader.py` — `Proofreader._split_into_chunks`;
* `src/transcriber.py` — `Transcriber._extract_chunked_audio`,
  `Transcriber.check_resume_available`, `Transcriber._parse_rate_limit_wait`,
  the retry loop of `Transcriber._transcribe_chunks`.

Python strings are modelled as `List Char` (`PyStr`); Python floats that only
ever hold exact decimal values are modelled as `ℚ`; filesystem state is passed
explicitly.
-/

/-- Python `str` modelled as a list of characters. -/
abbrev PyStr := List Char

/-- Conversion from a Lean string literal to the `List Char` model. -/
def pys (s : String) : PyStr := s.data

/-- The characters Python's `str.strip()` removes (ASCII whitespace,
matching `str.isspace` on the ASCII range). -/
def isPySpace (c : Char) : Bool :=
  c = ' ' || c = '\t' || c = '\n' || c = '\x0d' || c = '\x0b' || c = '\x0c'

/-- Python `str.strip()` with no argument: remove leading and trailing
whitespace. -/
def pyStrip (s : PyStr) : PyStr :=
  ((s.dropWhile isPySpace).reverse.dropWhile isPySpace).reverse

/-- Python `str.lower()` (ASCII range, which is all the code ever compares). -/
def pyLower (s : PyStr) : PyStr := s.map Char.toLower

/-- Python `a in b` for strings: substring containment. -/
def pyIn (a b : PyStr) : Bool := decide (a <:+: b)

/-- Line-break characters recognised by Python `str.splitlines`. -/
def isLineBreak (c : Char) : Bool :=
  c = '\n' || c = '\x0d' || c = '\x0b' || c = '\x0c' ||
  c = '\x1c' || c = '\x1d' || c = '\x1e' || c = '\x85' ||
  c = '\u2028' || c = '\u2029'

/-- Worker for `pySplitlines`: `cur` is the current (reversed) line; a
`\r\n` pair counts as one break. -/
def splitlinesAux (cur : List Char) : List Char → List (List Char)
  | [] => [cur.reverse]
  | c :: rest =>
    if isLineBreak c then
      match rest with
      | c2 :: rest2 =>
        if c = '\x0d' ∧ c2 = '\n' then
          cur.reverse :: (if rest2.isEmpty then [] else splitlinesAux [] rest2)
        else
          cur.reverse :: splitlinesAux [] (c2 :: rest2)
      | [] => [cur.reverse]
    else
      splitlinesAux (c :: cur) rest

/-- Python `str.splitlines()`: split at line breaks (treating `\r\n` as a
single break), with no trailing empty line for a trailing terminator and
`[]` for the empty string. -/
def pySplitlines (s : PyStr) : List PyStr :=
  if s.isEmpty then [] else splitlinesAux [] s

namespace Proofreader

/-- `MAX_CHUNK_CHARS` from `src/proofreader.py`. -/
def MAX_CHUNK_CHARS : Nat := 25000

/-- `CHUNK_OVERLAP_CHARS` from `src/proofreader.py`. -/
def CHUNK_OVERLAP_CHARS : Nat := 500

/-- One iteration of the line loop of `Proofreader._split_into_chunks`:
state is `(chunks, current_chunk)`. -/
def chunkStep (acc : List PyStr × PyStr) (line : PyStr) : List PyStr × PyStr :=
  if acc.2.length + line.length + 1 > MAX_CHUNK_CHARS ∧ acc.2 ≠ [] then
    (acc.1 ++ [pyStrip acc.2], line)
  else
    (acc.1, acc.2 ++ (if acc.2 = [] then [] else ['\n']) ++ line)

/-- The final `if current_chunk.strip(): chunks.append(current_chunk.strip())`
of `Proofreader._split_into_chunks`. -/
def lineChunksEnd (p : List PyStr × PyStr) : List PyStr :=
  if pyStrip p.2 ≠ [] then p.1 ++ [pyStrip p.2] else p.1

/-- The line-based pass of `Proofreader._split_into_chunks`: the `for line
in lines` loop plus the final append of the last chunk. -/
def lineChunks (text : PyStr) : List PyStr :=
  lineChunksEnd ((pySplitlines text).foldl chunkStep ([], []))

/-- The forced character split of `Proofreader._split_into_chunks`:
`for i in range(0, len(text), MAX_CHUNK_CHARS - CHUNK_OVERLAP_CHARS):
chunks.append(text[i:i + MAX_CHUNK_CHARS])`. -/
def forceSplit (text : PyStr) : List PyStr :=
  let step := MAX_CHUNK_CHARS - CHUNK_OVERLAP_CHARS
  (List.range ((text.length + step - 1) / step)).map
    (fun k => (text.drop (k * step)).take MAX_CHUNK_CHARS)

/-- `Proofreader._split_into_chunks`. -/
def splitIntoChunks (text : PyStr) : List PyStr :=
  if text.length ≤ MAX_CHUNK_CHARS then [text]
  else if (lineChunks text).length = 1 ∧ text.length > MAX_CHUNK_CHARS then
    forceSplit text
  else lineChunks text

/-- The string a block of consecutive input lines accumulates to in
`current_chunk` (empty lines at the front contribute nothing, exactly as
Python's truthiness test `if current_chunk` makes them). -/
def blockJoin (b : List PyStr) : PyStr :=
  b.foldl (fun cur line => cur ++ (if cur = [] then [] else ['\n']) ++ line) []

/-- The chunk a block of consecutive input lines turns into. -/
def blockChunk (b : List PyStr) : PyStr := pyStrip (blockJoin b)

end Proofreader

/-! ### Basic facts about the string helpers -/

theorem dropWhile_id_of (p : Char → Bool) :
    ∀ l : List Char, (∀ c ∈ l, p c = false) → l.dropWhile p = l
  | [], _ => rfl
  | c :: t, h => by
    rw [List.dropWhile_cons]
    simp [h c (by simp)]

theorem pyStrip_id (l : PyStr) (h : ∀ c ∈ l, isPySpace c = false) :
    pyStrip l = l := by
  unfold pyStrip
  rw [dropWhile_id_of _ l h,
    dropWhile_id_of _ l.reverse (fun c hc => h c (List.mem_reverse.mp hc)),
    List.reverse_reverse]

theorem pyStrip_length_le (l : PyStr) : (pyStrip l).length ≤ l.length := by
  unfold pyStrip
  rw [List.length_reverse]
  calc ((l.dropWhile isPySpace).reverse.dropWhile isPySpace).length
      ≤ (l.dropWhile isPySpace).reverse.length :=
        (List.dropWhile_sublist _).length_le
    _ = (l.dropWhile isPySpace).length := List.length_reverse _
    _ ≤ l.length := (List.dropWhile_sublist _).length_le

theorem splitlinesAux_skip {c : Char} (h : isLineBreak c = false)
    (cur rest : List Char) :
    splitlinesAux cur (c :: rest) = splitlinesAux (c :: cur) rest := by
  rw [splitlinesAux.eq_def]
  simp [h]

theorem splitlinesAux_append (l : List Char) :
    ∀ cur s, (∀ c ∈ l, isLineBreak c = false) →
      splitlinesAux cur (l ++ s) = splitlinesAux (l.reverse ++ cur) s := by
  induction l with
  | nil => intro cur s _; simp
  | cons c t ih =>
    intro cur s h
    rw [List.cons_append, splitlinesAux_skip (h c (by simp)),
      ih (c :: cur) s (fun x hx => h x (by simp [hx]))]
    simp

theorem splitlinesAux_ne_nil : ∀ (cs cur : List Char), splitlinesAux cur cs ≠ [] := by
  intro cs
  induction cs with
  | nil => intro cur; rw [splitlinesAux.eq_def]; simp
  | cons c rest ih =>
    intro cur
    rw [splitlinesAux.eq_def]
    by_cases hb : isLineBreak c
    · simp only [hb, if_true]
      cases rest with
      | nil => simp
      | cons c2 r2 =>
        simp only []
        split <;> simp
    · simp only [hb, Bool.false_eq_true, if_false]
      exact ih (c :: cur)

theorem pySplitlines_ne_nil (s : PyStr) (h : s ≠ []) : pySplitlines s ≠ [] := by
  unfold pySplitlines
  simp only [List.isEmpty_iff, h, if_false]
  exact splitlinesAux_ne_nil s []

theorem splitlinesAux_break {c c2 : Char} (hb : isLineBreak c = true)
    (hno : ¬(c = '\x0d' ∧ c2 = '\n')) (cur r2 : List Char) :
    splitlinesAux cur (c :: c2 :: r2) = cur.reverse :: splitlinesAux [] (c2 :: r2) := by
  rw [splitlinesAux.eq_def]
  simp [hb, hno]

/-! ### The proofreading splitter on concrete over-budget inputs

`longLine` is a single line of 25001 `a`s, one character over the budget;
`exText` places it before one further one-character line. -/

namespace Proofreader

/-- A single input line one character over the chunk budget. -/
def longLine : PyStr := List.replicate 25001 'a'

/-- An input whose first line alone exceeds the chunk budget and which
still contains a second line. -/
def exText : PyStr := longLine ++ ['\n', 'b']

theorem longLine_noBreak : ∀ c ∈ longLine, isLineBreak c = false := by
  intro c hc
  rw [List.eq_of_mem_replicate hc]
  decide

theorem longLine_noSpace : ∀ c ∈ longLine, isPySpace c = false := by
  intro c hc
  rw [List.eq_of_mem_replicate hc]
  decide

theorem longLine_length : longLine.length = 25001 := by
  simp only [longLine, List.length_replicate]

theorem longLine_ne_nil : longLine ≠ [] := by
  intro h
  have h2 := congrArg List.length h
  rw [longLine_length] at h2
  simp at h2

theorem exText_length : exText.length = 25003 := by
  unfold exText
  rw [List.length_append, longLine_length]
  rfl

theorem isEmpty_false_of_ne {l : List Char} (h : l ≠ []) : l.isEmpty = false := by
  cases l with
  | nil => exact absurd rfl h
  | cons a t => rfl

theorem exText_ne_nil : exText ≠ [] := by
  intro h
  have h2 := congrArg List.length h
  rw [exText_length] at h2
  simp at h2

theorem pySplitlines_exText : pySplitlines exText = [longLine, ['b']] := by
  unfold pySplitlines
  rw [isEmpty_false_of_ne exText_ne_nil]
  simp only [Bool.false_eq_true, if_false]
  show splitlinesAux [] (longLine ++ '\n' :: ['b']) = _
  rw [splitlinesAux_append longLine [] ('\n' :: ['b']) longLine_noBreak,
    splitlinesAux_break (by decide) (by decide)]
  have h2 : splitlinesAux [] ['b'] = [['b']] := by decide
  rw [h2]
  simp

theorem pySplitlines_longLine : pySplitlines longLine = [longLine] := by
  unfold pySplitlines
  rw [isEmpty_false_of_ne longLine_ne_nil]
  simp only [Bool.false_eq_true, if_false]
  have h2 : longLine = longLine ++ [] := by simp
  rw [h2, splitlinesAux_append longLine [] [] longLine_noBreak]
  rw [splitlinesAux.eq_def]
  simp

theorem chunkStep_eq (chunks : List PyStr) (cur line : PyStr) :
    chunkStep (chunks, cur) line =
      if cur.length + line.length + 1 > MAX_CHUNK_CHARS ∧ cur ≠ [] then
        (chunks ++ [pyStrip cur], line)
      else (chunks, cur ++ (if cur = [] then [] else ['\n']) ++ line) := rfl

theorem chunkStep_start (line : PyStr) : chunkStep ([], []) line = ([], line) := by
  rw [chunkStep_eq, if_neg (by simp)]
  simp

theorem chunkStep_flush : chunkStep ([], longLine) ['b'] = ([longLine], ['b']) := by
  rw [chunkStep_eq,
    if_pos ⟨by rw [longLine_length]; decide, longLine_ne_nil⟩,
    pyStrip_id longLine longLine_noSpace]
  rfl

theorem lineChunks_exText : lineChunks exText = [longLine, ['b']] := by
  unfold lineChunks
  rw [pySplitlines_exText, List.foldl_cons, chunkStep_start, List.foldl_cons,
    chunkStep_flush, List.foldl_nil]
  unfold lineChunksEnd
  show (if pyStrip ['b'] ≠ [] then [longLine] ++ [pyStrip ['b']] else [longLine]) = _
  rw [show pyStrip ['b'] = ['b'] from by decide, if_pos (by decide)]
  rfl

theorem lineChunks_longLine : lineChunks longLine = [longLine] := by
  unfold lineChunks
  rw [pySplitlines_longLine, List.foldl_cons, chunkStep_start, List.foldl_nil]
  unfold lineChunksEnd
  show (if pyStrip longLine ≠ [] then [] ++ [pyStrip longLine] else []) = [longLine]
  rw [pyStrip_id longLine longLine_noSpace, if_pos longLine_ne_nil]
  rfl

theorem splitIntoChunks_exText : splitIntoChunks exText = [longLine, ['b']] := by
  unfold splitIntoChunks
  rw [exText_length, lineChunks_exText, if_neg (by decide), if_neg (by decide)]

/-! ### Length bounds for the splitter -/

theorem forceSplit_length_le (text : PyStr) :
    ∀ c ∈ forceSplit text, c.length ≤ MAX_CHUNK_CHARS := by
  intro c hc
  unfold forceSplit at hc
  simp only [List.mem_map] at hc
  obtain ⟨k, -, rfl⟩ := hc
  calc ((text.drop (k * (MAX_CHUNK_CHARS - CHUNK_OVERLAP_CHARS))).take
        MAX_CHUNK_CHARS).length
      ≤ MAX_CHUNK_CHARS := by
        rw [List.length_take]
        exact Nat.min_le_left _ _

theorem foldl_chunkStep_bound :
    ∀ (lines : List PyStr) (chunks : List PyStr) (cur : PyStr),
      (∀ l ∈ lines, l.length ≤ MAX_CHUNK_CHARS) →
      (∀ c ∈ chunks, c.length ≤ MAX_CHUNK_CHARS) →
      cur.length ≤ MAX_CHUNK_CHARS →
      (∀ c ∈ (List.foldl chunkStep (chunks, cur) lines).1,
        c.length ≤ MAX_CHUNK_CHARS) ∧
      (List.foldl chunkStep (chunks, cur) lines).2.length ≤ MAX_CHUNK_CHARS := by
  intro lines
  induction lines with
  | nil => intro chunks cur _ hc hcur; exact ⟨hc, hcur⟩
  | cons line rest ih =>
    intro chunks cur hl hc hcur
    have hline : line.length ≤ MAX_CHUNK_CHARS := hl line (by simp)
    have hrest : ∀ l ∈ rest, l.length ≤ MAX_CHUNK_CHARS :=
      fun l h => hl l (by simp [h])
    rw [List.foldl_cons, chunkStep_eq]
    split
    case isTrue h =>
      refine ih _ _ hrest ?_ hline
      intro c hcmem
      rcases List.mem_append.mp hcmem with h1 | h1
      · exact hc c h1
      · rw [List.mem_singleton.mp h1]
        exact (pyStrip_length_le cur).trans hcur
    case isFalse h =>
      refine ih _ _ hrest hc ?_
      by_cases hnil : cur = []
      · simp [hnil]
        exact hline
      · have h2 : ¬ cur.length + line.length + 1 > MAX_CHUNK_CHARS := by
          intro hgt
          exact h ⟨hgt, hnil⟩
        simp only [hnil, if_false, List.length_append, List.length_cons,
          List.length_nil]
        omega

/-- C2 (corrected form).  Every chunk the splitter returns fits the 25000
character budget *provided no single input line exceeds the budget*; the
forced fixed-size split always respects the budget; and the forced split is
what the splitter returns whenever the text is over budget but the
line-based pass produced exactly one chunk. -/
theorem splitIntoChunks_budget (text : PyStr) :
    ((∀ l ∈ pySplitlines text, l.length ≤ MAX_CHUNK_CHARS) →
      ∀ c ∈ splitIntoChunks text, c.length ≤ MAX_CHUNK_CHARS)
    ∧ (∀ c ∈ forceSplit text, c.length ≤ MAX_CHUNK_CHARS)
    ∧ (MAX_CHUNK_CHARS < text.length → (lineChunks text).length = 1 →
        splitIntoChunks text = forceSplit text) := by
  refine ⟨?_, forceSplit_length_le text, ?_⟩
  · intro hl c hc
    unfold splitIntoChunks at hc
    split at hc
    case isTrue hle =>
      rw [List.mem_singleton.mp hc]
      exact hle
    case isFalse hgt =>
      split at hc
      case isTrue => exact forceSplit_length_le text c hc
      case isFalse =>
        unfold lineChunks lineChunksEnd at hc
        have hb := foldl_chunkStep_bound (pySplitlines text) [] [] hl
          (by simp) (by simp)
        split at hc
        case isTrue =>
          rcases List.mem_append.mp hc with h1 | h1
          · exact hb.1 c h1
          · rw [List.mem_singleton.mp h1]
            exact (pyStrip_length_le _).trans hb.2
        case isFalse => exact hb.1 c hc
  · intro h1 h2
    unfold splitIntoChunks
    rw [if_neg (by omega), if_pos ⟨h2, h1⟩]

/-- Witness for `splitIntoChunks_budget`: the budget bound evaluated on a
small input, and the forced-split branch taken on a single over-budget
line. -/
theorem splitIntoChunks_budget_witness :
    (∀ c ∈ splitIntoChunks (pys "hi"), c.length ≤ MAX_CHUNK_CHARS)
    ∧ splitIntoChunks longLine = forceSplit longLine := by
  constructor
  · exact (splitIntoChunks_budget (pys "hi")).1 (by decide)
  · exact (splitIntoChunks_budget longLine).2.2
      (by rw [longLine_length]; decide)
      (by rw [lineChunks_longLine]; rfl)

/-- C2 is false as stated: on `exText` (an over-budget line followed by a
second line) the splitter returns the over-budget line itself as a chunk of
25001 characters. -/
theorem splitIntoChunks_budget_counterexample :
    ∃ c ∈ splitIntoChunks exText, MAX_CHUNK_CHARS < c.length := by
  refine ⟨longLine, ?_, ?_⟩
  · rw [splitIntoChunks_exText]
    simp
  · rw [longLine_length]
    decide

/-! ### Line-boundary preservation of the splitter -/

theorem blockJoin_concat (b : List PyStr) (l : PyStr) :
    blockJoin (b ++ [l]) =
      blockJoin b ++ (if blockJoin b = [] then [] else ['\n']) ++ l := by
  unfold blockJoin
  rw [List.foldl_append]
  rfl

theorem blockJoin_singleton (l : PyStr) : blockJoin [l] = l := by
  unfold blockJoin
  simp

/-- Invariant of the `for line in lines` loop: the chunk list always
consists of the (stripped, joined) images of a partition of the already
consumed lines into consecutive nonempty blocks, with `current_chunk` the
join of the final, still-open block. -/
theorem foldl_chunkStep_partition :
    ∀ (lines : List PyStr) (blocks : List (List PyStr)) (curB : List PyStr),
      (∀ b ∈ blocks, b ≠ []) →
      ∃ (blocks' : List (List PyStr)) (curB' : List PyStr),
        List.foldl chunkStep (blocks.map blockChunk, blockJoin curB) lines
          = (blocks'.map blockChunk, blockJoin curB') ∧
        blocks'.flatten ++ curB' = blocks.flatten ++ curB ++ lines ∧
        (∀ b ∈ blocks', b ≠ []) ∧
        (curB' = [] → curB = [] ∧ lines = []) := by
  intro lines
  induction lines with
  | nil =>
    intro blocks curB hb
    exact ⟨blocks, curB, by simp, by simp, hb, fun h => ⟨h, rfl⟩⟩
  | cons line rest ih =>
    intro blocks curB hb
    rw [List.foldl_cons, chunkStep_eq]
    by_cases hcond : (blockJoin curB).length + line.length + 1 > MAX_CHUNK_CHARS
        ∧ blockJoin curB ≠ []
    · rw [if_pos hcond]
      have hcurBne : curB ≠ [] := by
        intro h
        exact hcond.2 (by rw [h]; rfl)
      have hmap : blocks.map blockChunk ++ [pyStrip (blockJoin curB)]
          = (blocks ++ [curB]).map blockChunk := by
        simp [blockChunk]
      have hline : line = blockJoin [line] := (blockJoin_singleton line).symm
      obtain ⟨blocks', curB', heq, hflat, hne, hemp⟩ :=
        ih (blocks ++ [curB]) [line]
          (by
            intro b hb'
            rcases List.mem_append.mp hb' with h1 | h1
            · exact hb b h1
            · rw [List.mem_singleton.mp h1]; exact hcurBne)
      refine ⟨blocks', curB', ?_, ?_, hne, ?_⟩
      · rw [← heq, hmap, ← hline]
      · rw [hflat]
        simp
      · intro h
        exact absurd (hemp h).1 (by simp)
    · rw [if_neg hcond]
      have hjoin : blockJoin curB ++ (if blockJoin curB = [] then [] else ['\n'])
          ++ line = blockJoin (curB ++ [line]) := by
        rw [blockJoin_concat]
      obtain ⟨blocks', curB', heq, hflat, hne, hemp⟩ := ih blocks (curB ++ [line]) hb
      refine ⟨blocks', curB', ?_, ?_, hne, ?_⟩
      · rw [← heq, hjoin]
      · rw [hflat]
        simp
      · intro h
        exact absurd (hemp h).1 (by simp)

/-- The line-based pass returns exactly the stripped joins of a partition of
the input's lines into consecutive nonempty blocks (with a final block whose
stripped join is empty possibly dropped). -/
theorem lineChunks_partition (text : PyStr) (h : text ≠ []) :
    ∃ blocks : List (List PyStr),
      blocks.flatten = pySplitlines text ∧
      (∀ b ∈ blocks, b ≠ []) ∧
      (lineChunks text = blocks.map blockChunk ∨
        ∃ bs b, blocks = bs ++ [b] ∧ blockChunk b = [] ∧
          lineChunks text = bs.map blockChunk) := by
  have hlines : pySplitlines text ≠ [] := pySplitlines_ne_nil text h
  obtain ⟨blocks', curB', heq, hflat, hne, hemp⟩ :=
    foldl_chunkStep_partition (pySplitlines text) [] [] (by simp)
  have hcurB : curB' ≠ [] := by
    intro hnil
    exact hlines (hemp hnil).2
  refine ⟨blocks' ++ [curB'], ?_, ?_, ?_⟩
  · rw [List.flatten_append]
    simpa using hflat
  · intro b hb'
    rcases List.mem_append.mp hb' with h1 | h1
    · exact hne b h1
    · rw [List.mem_singleton.mp h1]; exact hcurB
  · unfold lineChunks lineChunksEnd
    rw [show List.foldl chunkStep ([], []) (pySplitlines text)
        = List.foldl chunkStep (List.map blockChunk [], blockJoin [])
          (pySplitlines text) from rfl, heq]
    by_cases hstrip : pyStrip (blockJoin curB') ≠ []
    · left
      rw [if_pos hstrip]
      simp [blockChunk]
    · right
      refine ⟨blocks', curB', rfl, ?_, ?_⟩
      · unfold blockChunk
        exact not_ne_iff.mp hstrip
      · rw [if_neg hstrip]

end Proofreader

/-- C3 (corrected form).  Outside the code's actual fallback branch —
text over budget with the line-based pass producing exactly one chunk,
which can happen even when no single line exceeds the budget — every chunk
boundary of the proofreading splitter falls on a line boundary of the
input: the chunks are precisely the stripped joins of a partition of the
input's lines into consecutive nonempty blocks (a final whitespace-only
block is dropped). -/
theorem splitIntoChunks_line_aligned (text : PyStr)
    (h1 : Proofreader.MAX_CHUNK_CHARS < text.length)
    (h2 : (Proofreader.lineChunks text).length ≠ 1) :
    ∃ blocks : List (List PyStr),
      blocks.flatten = pySplitlines text ∧
      (∀ b ∈ blocks, b ≠ []) ∧
      (Proofreader.splitIntoChunks text = blocks.map Proofreader.blockChunk ∨
        ∃ bs b, blocks = bs ++ [b] ∧ Proofreader.blockChunk b = [] ∧
          Proofreader.splitIntoChunks text = bs.map Proofreader.blockChunk) := by
  have htext : text ≠ [] := by
    intro hnil
    rw [hnil] at h1
    simp [Proofreader.MAX_CHUNK_CHARS] at h1
  have hsplit : Proofreader.splitIntoChunks text = Proofreader.lineChunks text := by
    unfold Proofreader.splitIntoChunks
    rw [if_neg (by omega), if_neg (by intro hand; exact h2 hand.1)]
  rw [hsplit]
  exact Proofreader.lineChunks_partition text htext

/-- Witness for `splitIntoChunks_line_aligned` at the concrete over-budget
two-line input `exText`. -/
theorem splitIntoChunks_line_aligned_witness :
    Proofreader.MAX_CHUNK_CHARS < Proofreader.exText.length ∧
    (Proofreader.lineChunks Proofreader.exText).length ≠ 1 ∧
    ∃ blocks : List (List PyStr),
      blocks.flatten = pySplitlines Proofreader.exText ∧
      (∀ b ∈ blocks, b ≠ []) ∧
      (Proofreader.splitIntoChunks Proofreader.exText
          = blocks.map Proofreader.blockChunk ∨
        ∃ bs b, blocks = bs ++ [b] ∧ Proofreader.blockChunk b = [] ∧
          Proofreader.splitIntoChunks Proofreader.exText
            = bs.map Proofreader.blockChunk) := by
  have ha : Proofreader.MAX_CHUNK_CHARS < Proofreader.exText.length := by
    rw [Proofreader.exText_length]
    decide
  have hb : (Proofreader.lineChunks Proofreader.exText).length ≠ 1 := by
    rw [Proofreader.lineChunks_exText]
    decide
  exact ⟨ha, hb, splitIntoChunks_line_aligned Proofreader.exText ha hb⟩

/-! ### The fallback can fire although no line exceeds the budget

`crText` is a 24000-character line, a newline, and a 5000-character
whitespace-only line: no line exceeds the budget, but the whitespace line
is flushed away by `strip()`, the line pass yields a single chunk, and the
forced character split cuts the text mid-line. -/

namespace Proofreader

/-- A 24000-character line (within the budget). -/
def awLine : PyStr := List.replicate 24000 'a'

/-- A whitespace-only 5000-character line (within the budget). -/
def spTail : PyStr := List.replicate 5000 ' '

/-- Two in-budget lines whose total length exceeds the budget and whose
second line strips to nothing. -/
def crText : PyStr := awLine ++ '\n' :: spTail

theorem awLine_noBreak : ∀ c ∈ awLine, isLineBreak c = false := by
  intro c hc
  rw [List.eq_of_mem_replicate hc]
  decide

theorem awLine_noSpace : ∀ c ∈ awLine, isPySpace c = false := by
  intro c hc
  rw [List.eq_of_mem_replicate hc]
  decide

theorem spTail_noBreak : ∀ c ∈ spTail, isLineBreak c = false := by
  intro c hc
  rw [List.eq_of_mem_replicate hc]
  decide

theorem awLine_length : awLine.length = 24000 := by
  simp only [awLine, List.length_replicate]

theorem spTail_length : spTail.length = 5000 := by
  simp only [spTail, List.length_replicate]

theorem awLine_ne_nil : awLine ≠ [] := by
  intro h
  have h2 := congrArg List.length h
  rw [awLine_length] at h2
  simp at h2

theorem crText_length : crText.length = 29001 := by
  unfold crText
  rw [List.length_append, awLine_length, List.length_cons, spTail_length]

theorem crText_ne_nil : crText ≠ [] := by
  intro h
  have h2 := congrArg List.length h
  rw [crText_length] at h2
  simp at h2

theorem dropWhile_true_replicate (p : Char → Bool) (a : Char)
    (hp : p a = true) : ∀ n, List.dropWhile p (List.replicate n a) = []
  | 0 => rfl
  | n + 1 => by
    rw [List.replicate_succ, List.dropWhile_cons, hp]
    simp only [if_true]
    exact dropWhile_true_replicate p a hp n

theorem pyStrip_spTail : pyStrip spTail = [] := by
  unfold pyStrip spTail
  rw [dropWhile_true_replicate isPySpace ' ' (by decide) 5000]
  rfl

theorem pySplitlines_crText : pySplitlines crText = [awLine, spTail] := by
  unfold pySplitlines
  rw [isEmpty_false_of_ne crText_ne_nil]
  simp only [Bool.false_eq_true, if_false]
  show splitlinesAux [] (awLine ++ '\n' :: spTail) = _
  rw [splitlinesAux_append awLine [] ('\n' :: spTail) awLine_noBreak,
    show spTail = ' ' :: List.replicate 4999 ' ' from rfl,
    splitlinesAux_break (by decide) (by decide)]
  have h2 : splitlinesAux [] (spTail ++ []) = [spTail] := by
    rw [splitlinesAux_append spTail [] [] spTail_noBreak,
      splitlinesAux.eq_def]
    simp
  rw [List.append_nil] at h2
  rw [show (' ' :: List.replicate 4999 ' ' : List Char) = spTail from rfl, h2]
  simp

theorem chunkStep_flush_cr : chunkStep ([], awLine) spTail = ([awLine], spTail) := by
  rw [chunkStep_eq,
    if_pos ⟨by rw [awLine_length, spTail_length]; decide, awLine_ne_nil⟩,
    pyStrip_id awLine awLine_noSpace]
  rfl

theorem lineChunks_crText : lineChunks crText = [awLine] := by
  unfold lineChunks
  rw [pySplitlines_crText, List.foldl_cons, chunkStep_start, List.foldl_cons,
    chunkStep_flush_cr, List.foldl_nil]
  unfold lineChunksEnd
  show (if pyStrip spTail ≠ [] then [awLine] ++ [pyStrip spTail] else [awLine])
      = [awLine]
  rw [pyStrip_spTail]
  simp

theorem splitIntoChunks_crText :
    splitIntoChunks crText = forceSplit crText := by
  unfold splitIntoChunks
  rw [crText_length, lineChunks_crText, if_neg (by decide),
    if_pos ⟨rfl, by decide⟩]

theorem forceSplit_crText :
    forceSplit crText = [crText.take 25000, (crText.drop 24500).take 25000] := by
  unfold forceSplit
  rw [crText_length]
  norm_num [MAX_CHUNK_CHARS, CHUNK_OVERLAP_CHARS]
  rw [show List.range 2 = [0, 1] from by decide]
  simp

theorem blockChunk_awLine : blockChunk [awLine] = awLine := by
  unfold blockChunk
  rw [blockJoin_singleton, pyStrip_id awLine awLine_noSpace]

end Proofreader

/-- C3 is false as stated: in `crText` no single line exceeds the chunk
budget, yet the splitter's chunks are not the stripped joins of any
partition of the input's lines into consecutive nonempty blocks — the
whitespace-only second line is stripped away, the line pass yields one
chunk, and the forced character split cuts the text mid-line. -/
theorem splitIntoChunks_line_aligned_counterexample :
    (∀ l ∈ pySplitlines Proofreader.crText,
      l.length ≤ Proofreader.MAX_CHUNK_CHARS)
    ∧ ¬ (∃ blocks : List (List PyStr),
        blocks.flatten = pySplitlines Proofreader.crText
        ∧ (∀ b ∈ blocks, b ≠ [])
        ∧ (Proofreader.splitIntoChunks Proofreader.crText
              = blocks.map Proofreader.blockChunk
          ∨ ∃ bs b, blocks = bs ++ [b] ∧ Proofreader.blockChunk b = []
              ∧ Proofreader.splitIntoChunks Proofreader.crText
                  = bs.map Proofreader.blockChunk)) := by
  constructor
  · rw [Proofreader.pySplitlines_crText]
    intro l hl
    have hl2 : l = Proofreader.awLine ∨ l = Proofreader.spTail := by
      simpa using hl
    rcases hl2 with rfl | rfl
    · rw [Proofreader.awLine_length]; decide
    · rw [Proofreader.spTail_length]; decide
  · rintro ⟨blocks, hflat, hne, hcase⟩
    rw [Proofreader.pySplitlines_crText] at hflat
    rcases hcase with hmap | ⟨bs, b, hbl, hbchunk, hmap⟩
    · rw [Proofreader.splitIntoChunks_crText, Proofreader.forceSplit_crText]
        at hmap
      have hlen2 : blocks.length = 2 := by
        have h := congrArg List.length hmap
        simpa using h.symm
      obtain ⟨b1, b2, rfl⟩ : ∃ b1 b2, blocks = [b1, b2] := by
        cases blocks with
        | nil => simp at hlen2
        | cons x t =>
          cases t with
          | nil => simp at hlen2
          | cons y t2 =>
            cases t2 with
            | nil => exact ⟨x, y, rfl⟩
            | cons z t3 => simp at hlen2
      have h1 : 1 ≤ b1.length :=
        List.length_pos.mpr (hne b1 (by simp))
      have h2 : 1 ≤ b2.length :=
        List.length_pos.mpr (hne b2 (by simp))
      have hsum : b1.length + b2.length = 2 := by
        have h := congrArg List.length hflat
        simpa using h
      obtain ⟨u, rfl⟩ := List.length_eq_one.mp (by omega : b1.length = 1)
      obtain ⟨v, rfl⟩ := List.length_eq_one.mp (by omega : b2.length = 1)
      have huv : u = Proofreader.awLine ∧ v = Proofreader.spTail := by
        simpa using hflat
      obtain ⟨rfl, rfl⟩ := huv
      have hhead : Proofreader.crText.take 25000
          = Proofreader.blockChunk [Proofreader.awLine] := by
        have h := congrArg List.head? hmap
        simpa using h
      rw [Proofreader.blockChunk_awLine] at hhead
      have hlen := congrArg List.length hhead
      rw [List.length_take, Proofreader.crText_length,
        Proofreader.awLine_length] at hlen
      omega
    · subst hbl
      rw [Proofreader.splitIntoChunks_crText, Proofreader.forceSplit_crText]
        at hmap
      have hbslen : bs.length = 2 := by
        have h := congrArg List.length hmap
        simpa using h.symm
      obtain ⟨c1, c2, rfl⟩ : ∃ c1 c2, bs = [c1, c2] := by
        cases bs with
        | nil => simp at hbslen
        | cons x t =>
          cases t with
          | nil => simp at hbslen
          | cons y t2 =>
            cases t2 with
            | nil => exact ⟨x, y, rfl⟩
            | cons z t3 => simp at hbslen
      have h1 : 1 ≤ c1.length :=
        List.length_pos.mpr (hne c1 (by simp))
      have h2 : 1 ≤ c2.length :=
        List.length_pos.mpr (hne c2 (by simp))
      have h3 : 1 ≤ b.length :=
        List.length_pos.mpr (hne b (by simp))
      have hsum : c1.length + (c2.length + b.length) = 2 := by
        have h := congrArg List.length hflat
        simpa using h
      omega

/-! ## The download worker (`src/download_manager.py`)

The two progress regexes of `DownloadWorker._parse_progress_line` are
implemented as deterministic matchers that realise exactly the backtracking
search `re.search` performs on them:

* full:   `\[download\]\s+(\d+\.?\d*)%.*?at\s+([\d.]+\s*\w+/s).*?ETA\s+(\d+:\d+)`
* simple: `\[download\]\s+(\d+\.?\d*)%`

Character classes are the ASCII readings of `\s`, `\d`, `\w` (all the input
the tool emits is ASCII); `.` does not match a newline. -/

/-- `\s` of Python `re` (ASCII range). -/
def isReSpace (c : Char) : Bool := isPySpace c

/-- `\w` of Python `re` (ASCII range). -/
def isReWord (c : Char) : Bool := c.isAlphanum || c = '_'

/-- `[\d.]` of the rate group. -/
def isDigitDot (c : Char) : Bool := c.isDigit || c = '.'

/-- Numeric value of a digit string. -/
def natOfDigits (ds : List Char) : Nat :=
  ds.foldl (fun n c => n * 10 + (c.toNat - '0'.toNat)) 0

/-- Python `int(float(s))` for a nonnegative decimal literal: keep the
integer part (truncation). -/
def intPartOfFloatStr (s : List Char) : Int :=
  Int.ofNat (natOfDigits (s.takeWhile Char.isDigit))

/-- Match `\s+(\d+\.?\d*)%` at the current position, returning the captured
group and the rest of the input after the `%`.  The quantifiers are
deterministic here: each maximal run is forced because the following token
can never match a character of the run's class. -/
def matchPctTail (cs : List Char) : Option (List Char × List Char) :=
  if cs.takeWhile isReSpace = [] then none
  else
    let r1 := cs.dropWhile isReSpace
    let d1 := r1.takeWhile Char.isDigit
    if d1 = [] then none
    else
      match r1.dropWhile Char.isDigit with
      | [] => none
      | c :: r3 =>
        if c = '%' then some (d1, r3)
        else if c = '.' then
          let d2 := r3.takeWhile Char.isDigit
          match r3.dropWhile Char.isDigit with
          | [] => none
          | c2 :: r5 => if c2 = '%' then some (d1 ++ '.' :: d2, r5) else none
        else none

/-- Search for the simple pattern `\[download\]\s+(\d+\.?\d*)%`: try every
start position left to right, a match can only begin at the literal. -/
def searchSimplePct : List Char → Option (List Char)
  | [] => none
  | c :: rest =>
    match (if List.isPrefixOf (pys "[download]") (c :: rest) then
        matchPctTail ((c :: rest).drop 10)
      else none) with
    | some (g, _) => some g
    | none => searchSimplePct rest

/-- Match `\s+(\d+:\d+)` immediately after an `ETA` literal. -/
def matchEtaTail (cs : List Char) : Option (List Char) :=
  if cs.takeWhile isReSpace = [] then none
  else
    let r1 := cs.dropWhile isReSpace
    let d1 := r1.takeWhile Char.isDigit
    if d1 = [] then none
    else
      match r1.dropWhile Char.isDigit with
      | [] => none
      | c :: r3 =>
        if c = ':' then
          let d2 := r3.takeWhile Char.isDigit
          if d2 = [] then none else some (d1 ++ ':' :: d2)
        else none

/-- The lazy `.*?ETA\s+(\d+:\d+)` tail: scan left to right for the first
`ETA` whose tail matches; `.*?` cannot cross a newline. -/
def searchEta : List Char → Option (List Char)
  | [] => none
  | c :: rest =>
    match (if List.isPrefixOf (pys "ETA") (c :: rest) then
        matchEtaTail ((c :: rest).drop 3)
      else none) with
    | some g => some g
    | none => if c = '\n' then none else searchEta rest

/-- Match `\s*\w+/s` after a chosen `[\d.]+` prefix `taken`; returns the
whole rate group and the rest after it.  `\s*` and `\w+` are forced maximal
runs (a giveback would put a non-matching character first). -/
def rateCont (taken after : List Char) : Option (List Char × List Char) :=
  let ws := after.takeWhile isReSpace
  let r2 := after.dropWhile isReSpace
  let w := r2.takeWhile isReWord
  if w = [] then none
  else
    match r2.dropWhile isReWord with
    | c1 :: c2 :: r4 =>
      if c1 = '/' ∧ c2 = 's' then some (taken ++ ws ++ w ++ ['/', 's'], r4)
      else none
    | _ => none

/-- Backtracking over the greedy `[\d.]+`: try the prefixes of the maximal
digits-and-dots run `dd` from longest to shortest; a candidate rate group
only survives if an `ETA` group is found after it. -/
def tryRateEta (dd r1 : List Char) : Nat → Option (List Char × List Char)
  | 0 => none
  | k + 1 =>
    match rateCont (dd.take (k + 1)) (dd.drop (k + 1) ++ r1) with
    | some (rate, after) =>
      match searchEta after with
      | some eta => some (rate, eta)
      | none => tryRateEta dd r1 k
    | none => tryRateEta dd r1 k

/-- Match `\s+([\d.]+\s*\w+/s).*?ETA\s+(\d+:\d+)` after an `at` literal. -/
def matchRateEtaTail (cs : List Char) : Option (List Char × List Char) :=
  if cs.takeWhile isReSpace = [] then none
  else
    let r := cs.dropWhile isReSpace
    let dd := r.takeWhile isDigitDot
    let r1 := r.dropWhile isDigitDot
    if dd = [] then none else tryRateEta dd r1 dd.length

/-- The lazy `.*?at ...` search for the rate and ETA groups: scan left to
right for the first `at` after which both remaining groups match; `.*?`
cannot cross a newline. -/
def searchAtRateEta : List Char → Option (List Char × List Char)
  | [] => none
  | c :: rest =>
    match (if List.isPrefixOf (pys "at") (c :: rest) then
        matchRateEtaTail ((c :: rest).drop 2)
      else none) with
    | some r => some r
    | none => if c = '\n' then none else searchAtRateEta rest

/-- `re.search` of the full progress pattern. -/
def searchFullProgress : List Char → Option (List Char × List Char × List Char)
  | [] => none
  | c :: rest =>
    match (if List.isPrefixOf (pys "[download]") (c :: rest) then
        (match matchPctTail ((c :: rest).drop 10) with
          | some (pct, r) =>
            (match searchAtRateEta r with
              | some (rate, eta) => some (pct, rate, eta)
              | none => none)
          | none => none)
      else none) with
    | some r => some r
    | none => searchFullProgress rest

/-- The dictionary `DownloadWorker._parse_progress_line` returns on a
progress line. -/
structure ProgressInfo where
  percentage : Int
  speed : PyStr
  eta : PyStr
deriving DecidableEq

/-- `DownloadWorker._parse_progress_line`. -/
def parseProgressLine (line : PyStr) : Option ProgressInfo :=
  if ¬ pyIn (pys "[download]") line then none
  else
    match searchFullProgress line with
    | some (pct, rate, eta) => some ⟨intPartOfFloatStr pct, rate, eta⟩
    | none =>
      match searchSimplePct line with
      | some pct => some ⟨intPartOfFloatStr pct, [], []⟩
      | none => none

/-! ### The worker's streaming loop (`DownloadWorker.run`)

The worker is modelled as a function of
* a cancellation schedule `cancel : Nat → Bool` giving the value of the
  `_cancelled` flag at its k-th read (the flag is read once per consumed
  line and once after the process exits),
* whether the destination directory could be created (`dirOk`),
* the list of lines the subprocess produced, its exit code, and the data
  (`full_path`, file size, filename) used in the emitted signals.

It returns the list of emitted Qt signals in order, plus the terminal state
of the job.  Log messages are modelled structurally (`logStarting`,
`logCancelled`, `logComplete`): their exact textual rendering carries no
logic. -/

/-- A Qt signal emission of the worker. -/
inductive Sig where
  | progress (percentage : Int) (speed eta : PyStr)
  | finished (path : PyStr) (sizeMB : ℚ)
  | errorSig (msg : PyStr)
  | logStarting (filename : PyStr)
  | logCancelled
  | logComplete (filename : PyStr) (sizeMB : ℚ)
deriving DecidableEq

/-- State after the `for line in iter(...)` loop: emitted events, the
`last_percentage` variable, the collected `error_lines`, how many times the
`_cancelled` flag was read, and whether the loop returned via cancellation. -/
structure LoopOut where
  events : List Sig
  lastPct : Int
  errLines : List PyStr
  checks : Nat
  cancelled : Bool
deriving DecidableEq

/-- `"ERROR" in line or "error" in line.lower()`. -/
def isErrorLine (l : PyStr) : Bool :=
  pyIn (pys "ERROR") l || pyIn (pys "error") (pyLower l)

/-- `error_lines.append(line)` when the (stripped) line carries an error
marker. -/
def collectErr (errs : List PyStr) (l : PyStr) : List PyStr :=
  if isErrorLine l then errs ++ [l] else errs

/-- Prepend the `progress_updated` emission of the current line to the
events of the rest of the loop. -/
def prependProgress (pr : ProgressInfo) (out : LoopOut) : LoopOut :=
  { out with events := Sig.progress pr.percentage pr.speed pr.eta :: out.events }

/-- The `for line in iter(self._process.stdout.readline, '')` loop of
`DownloadWorker.run`: per line, the cancellation flag is read first, then
the line is stripped, empties are skipped, error lines collected, and a
parsed percentage is emitted exactly when it differs from
`last_percentage`. -/
def processLines (cancel : Nat → Bool) :
    Nat → Int → List PyStr → List PyStr → LoopOut
  | k, last, errs, [] => ⟨[], last, errs, k, false⟩
  | k, last, errs, line :: rest =>
    if cancel k then ⟨[Sig.logCancelled], last, errs, k + 1, true⟩
    else
      if pyStrip line = [] then processLines cancel (k + 1) last errs rest
      else
        match parseProgressLine (pyStrip line) with
        | some pr =>
          if pr.percentage ≠ last then
            prependProgress pr
              (processLines cancel (k + 1) pr.percentage
                (collectErr errs (pyStrip line)) rest)
          else
            processLines cancel (k + 1) last (collectErr errs (pyStrip line)) rest
        | none =>
          processLines cancel (k + 1) last (collectErr errs (pyStrip line)) rest

/-- The error-message classification of the non-zero-exit branch of
`DownloadWorker.run`. -/
def classifyError (errs : List PyStr) : PyStr :=
  match errs.getLast? with
  | none => pys "Download failed. Please check your connection and try again."
  | some e =>
    if pyIn (pys "Sign in") e || pyIn (pys "bot") (pyLower e) then
      pys "YouTube requires sign-in. Please sign in to YouTube in your browser and try again."
    else if pyIn (pys "unavailable") (pyLower e) then
      pys "This video is unavailable or private."
    else if pyIn (pys "age") (pyLower e) then
      pys "This video is age-restricted. Please sign in to YouTube in your browser."
    else e

/-- Terminal state of one download job. -/
inductive Outcome where
  | succeeded
  | failed
  | cancelled
deriving DecidableEq

/-- The tail of `DownloadWorker.run` after the streaming loop: the
post-`wait()` cancellation check and the exit-code dispatch. -/
def workerRunAfter (cancel : Nat → Bool) (out : LoopOut) (returncode : Int)
    (fullPath : PyStr) (fileSize : ℚ) (filename : PyStr) : List Sig × Outcome :=
  if out.cancelled then
    (Sig.logStarting filename :: out.events, Outcome.cancelled)
  else if cancel out.checks then
    (Sig.logStarting filename :: out.events, Outcome.cancelled)
  else if returncode = 0 then
    (Sig.logStarting filename :: out.events ++
      [Sig.progress 100 [] [], Sig.finished fullPath fileSize,
        Sig.logComplete filename fileSize], Outcome.succeeded)
  else
    (Sig.logStarting filename :: out.events ++
      [Sig.errorSig (classifyError out.errLines)], Outcome.failed)

/-- `DownloadWorker.run` from the directory check onward: the emitted
signals in order and the job's terminal state. -/
def workerRun (cancel : Nat → Bool) (dirOk : Bool) (lines : List PyStr)
    (returncode : Int) (fullPath : PyStr) (fileSize : ℚ) (filename : PyStr) :
    List Sig × Outcome :=
  if ¬ dirOk then
    ([Sig.errorSig (pys "Cannot create download folder. Check permissions.")],
      Outcome.failed)
  else
    workerRunAfter cancel (processLines cancel 0 0 [] lines) returncode
      fullPath fileSize filename

/-- The percentages of the progress events of an emission list, in order. -/
def progressPcts (evts : List Sig) : List Int :=
  evts.filterMap (fun e =>
    match e with
    | Sig.progress p _ _ => some p
    | _ => none)

/-- Whether a signal is the `download_finished` emission. -/
def isFinished : Sig → Bool
  | Sig.finished _ _ => true
  | _ => false

theorem processLines_nil (cancel : Nat → Bool) (k : Nat) (last : Int)
    (errs : List PyStr) :
    processLines cancel k last errs [] = ⟨[], last, errs, k, false⟩ := rfl

theorem processLines_cons (cancel : Nat → Bool) (k : Nat) (last : Int)
    (errs : List PyStr) (line : PyStr) (rest : List PyStr) :
    processLines cancel k last errs (line :: rest) =
      if cancel k then ⟨[Sig.logCancelled], last, errs, k + 1, true⟩
      else
        if pyStrip line = [] then processLines cancel (k + 1) last errs rest
        else
          match parseProgressLine (pyStrip line) with
          | some pr =>
            if pr.percentage ≠ last then
              prependProgress pr
                (processLines cancel (k + 1) pr.percentage
                  (collectErr errs (pyStrip line)) rest)
            else
              processLines cancel (k + 1) last (collectErr errs (pyStrip line)) rest
          | none =>
            processLines cancel (k + 1) last (collectErr errs (pyStrip line)) rest
    := rfl

theorem progressPcts_append (a b : List Sig) :
    progressPcts (a ++ b) = progressPcts a ++ progressPcts b := by
  simp [progressPcts]

/-- The de-duplication invariant of the streaming loop: with
`last_percentage = last`, the emitted percentages, preceded by `last`, form
a chain of pairwise-different adjacent values. -/
theorem processLines_pcts_chain (cancel : Nat → Bool) :
    ∀ (lines : List PyStr) (k : Nat) (last : Int) (errs : List PyStr),
      List.Chain' (fun a b => a ≠ b)
        (last :: progressPcts (processLines cancel k last errs lines).events) := by
  intro lines
  induction lines with
  | nil =>
    intro k last errs
    rw [processLines_nil]
    simp [progressPcts]
  | cons line rest ih =>
    intro k last errs
    rw [processLines_cons]
    by_cases hk : cancel k
    · rw [if_pos hk]
      simp [progressPcts]
    · rw [if_neg hk]
      by_cases hstrip : pyStrip line = []
      · rw [if_pos hstrip]
        exact ih k.succ last errs
      · rw [if_neg hstrip]
        cases hp : parseProgressLine (pyStrip line) with
        | none => exact ih k.succ last (collectErr errs (pyStrip line))
        | some pr =>
          dsimp only []
          by_cases hne : pr.percentage ≠ last
          · rw [if_pos hne]
            have hrec := ih k.succ pr.percentage (collectErr errs (pyStrip line))
            simp only [prependProgress, progressPcts] at hrec ⊢
            rw [List.filterMap_cons]
            simp only [List.chain'_cons]
            exact ⟨Ne.symm hne, hrec⟩
          · rw [if_neg hne]
            exact ih k.succ last (collectErr errs (pyStrip line))

/-- The streaming loop never returns via cancellation when the flag is
never set. -/
theorem processLines_not_cancelled (cancel : Nat → Bool)
    (hnc : ∀ k, cancel k = false) :
    ∀ (lines : List PyStr) (k : Nat) (last : Int) (errs : List PyStr),
      (processLines cancel k last errs lines).cancelled = false := by
  intro lines
  induction lines with
  | nil => intro k last errs; rw [processLines_nil]
  | cons line rest ih =>
    intro k last errs
    rw [processLines_cons, if_neg (by simp [hnc k])]
    by_cases hstrip : pyStrip line = []
    · rw [if_pos hstrip]; exact ih _ _ _
    · rw [if_neg hstrip]
      cases hp : parseProgressLine (pyStrip line) with
      | none => exact ih _ _ _
      | some pr =>
        dsimp only []
        by_cases hne : pr.percentage ≠ last
        · rw [if_pos hne]
          simp only [prependProgress]
          exact ih _ _ _
        · rw [if_neg hne]; exact ih _ _ _

/-- The `logStarting` emission contributes no percentage. -/
theorem progressPcts_logStarting_cons (name : PyStr) (evts : List Sig) :
    progressPcts (Sig.logStarting name :: evts) = progressPcts evts := rfl

/-- C1 (corrected form).  On every run that does not end Succeeded, all
emitted percentages have pairwise-different adjacent values and the first
also differs from the initial `last_percentage = 0`; on a successful run
the emissions are those of the streaming loop followed by the final
unconditional 100, and the same chain property holds for everything before
that final emission. -/
theorem progress_dedup_amended (cancel : Nat → Bool) (dirOk : Bool)
    (lines : List PyStr) (rc : Int) (path : PyStr) (size : ℚ) (name : PyStr) :
    ((workerRun cancel dirOk lines rc path size name).2 ≠ Outcome.succeeded →
      List.Chain' (fun a b => a ≠ b)
        (0 :: progressPcts (workerRun cancel dirOk lines rc path size name).1))
    ∧ ((workerRun cancel dirOk lines rc path size name).2 = Outcome.succeeded →
      ∃ loopPcts : List Int,
        progressPcts (workerRun cancel dirOk lines rc path size name).1
          = loopPcts ++ [100]
        ∧ List.Chain' (fun a b => a ≠ b) (0 :: loopPcts)) := by
  unfold workerRun
  by_cases hdir : ¬ dirOk
  · rw [if_pos hdir]
    constructor
    · intro _
      simp [progressPcts]
    · intro h
      exact Outcome.noConfusion h
  · rw [if_neg hdir]
    unfold workerRunAfter
    have hchain := processLines_pcts_chain cancel lines 0 0 []
    split
    · exact ⟨fun _ => by
        rw [progressPcts_logStarting_cons]
        exact hchain,
      fun h => Outcome.noConfusion h⟩
    · split
      · exact ⟨fun _ => by
          rw [progressPcts_logStarting_cons]
          exact hchain,
        fun h => Outcome.noConfusion h⟩
      · split
        · refine ⟨fun h => absurd rfl h, fun _ => ?_⟩
          refine ⟨progressPcts (processLines cancel 0 0 [] lines).events,
            ?_, hchain⟩
          dsimp only []
          rw [progressPcts_append, progressPcts_logStarting_cons]
          rfl
        · refine ⟨fun _ => ?_, fun h => Outcome.noConfusion h⟩
          dsimp only []
          rw [progressPcts_append, progressPcts_logStarting_cons]
          simpa [progressPcts] using hchain

/-- Witness for `progress_dedup_amended`: a failed run (exit code 1) with a
fully chained emission list, and a successful run whose emissions are the
loop's plus the final 100. -/
theorem progress_dedup_amended_witness :
    ((workerRun (fun _ => false) true [pys "[download] 50%"] 1
        (pys "/tmp/v.mp4") 3 (pys "v.mp4")).2 ≠ Outcome.succeeded
      ∧ List.Chain' (fun a b => a ≠ b)
          (0 :: progressPcts (workerRun (fun _ => false) true
            [pys "[download] 50%"] 1 (pys "/tmp/v.mp4") 3 (pys "v.mp4")).1))
    ∧ ((workerRun (fun _ => false) true [pys "[download] 50%"] 0
        (pys "/tmp/v.mp4") 3 (pys "v.mp4")).2 = Outcome.succeeded
      ∧ ∃ loopPcts : List Int,
          progressPcts (workerRun (fun _ => false) true
            [pys "[download] 50%"] 0 (pys "/tmp/v.mp4") 3 (pys "v.mp4")).1
            = loopPcts ++ [100]
          ∧ List.Chain' (fun a b => a ≠ b) (0 :: loopPcts)) := by
  constructor
  · have hne : (workerRun (fun _ => false) true [pys "[download] 50%"] 1
        (pys "/tmp/v.mp4") 3 (pys "v.mp4")).2 ≠ Outcome.succeeded := by decide
    exact ⟨hne, (progress_dedup_amended (fun _ => false) true
      [pys "[download] 50%"] 1 (pys "/tmp/v.mp4") 3 (pys "v.mp4")).1 hne⟩
  · have heq : (workerRun (fun _ => false) true [pys "[download] 50%"] 0
        (pys "/tmp/v.mp4") 3 (pys "v.mp4")).2 = Outcome.succeeded := by decide
    exact ⟨heq, (progress_dedup_amended (fun _ => false) true
      [pys "[download] 50%"] 0 (pys "/tmp/v.mp4") 3 (pys "v.mp4")).2 heq⟩

/-- C1 is false as stated: one run in which the only parsed line already
reports 100% and the exit code is 0 emits two consecutive progress events
with the same percentage (the loop emission and the unconditional
completion emission). -/
theorem progress_dedup_counterexample :
    progressPcts (workerRun (fun _ => false) true [pys "[download] 100%"] 0
        (pys "/tmp/video.mp4") 1 (pys "video.mp4")).1 = [100, 100]
    ∧ ¬ List.Chain' (fun a b : Int => a ≠ b)
        (progressPcts (workerRun (fun _ => false) true [pys "[download] 100%"] 0
          (pys "/tmp/video.mp4") 1 (pys "video.mp4")).1) := by
  have h1 : progressPcts (workerRun (fun _ => false) true
      [pys "[download] 100%"] 0 (pys "/tmp/video.mp4") 1
      (pys "video.mp4")).1 = [100, 100] := by decide
  refine ⟨h1, ?_⟩
  rw [h1]
  intro hch
  exact (List.chain'_cons.mp hch).1 rfl

/-- C9: a run with exit code 0 and no cancellation emits
`progress_updated(100, "", "")` immediately before `download_finished`,
whatever was parsed before. -/
theorem success_emits_final_progress (cancel : Nat → Bool) (lines : List PyStr)
    (path : PyStr) (size : ℚ) (name : PyStr) (hnc : ∀ k, cancel k = false) :
    ∃ E, (workerRun cancel true lines 0 path size name).1
        = E ++ [Sig.progress 100 [] [], Sig.finished path size,
            Sig.logComplete name size]
      ∧ (workerRun cancel true lines 0 path size name).2 = Outcome.succeeded := by
  unfold workerRun
  rw [if_neg (by simp)]
  unfold workerRunAfter
  rw [if_neg (by simp [processLines_not_cancelled cancel hnc]),
    if_neg (by simp [hnc]), if_pos rfl]
  exact ⟨Sig.logStarting name :: (processLines cancel 0 0 [] lines).events,
    by simp, rfl⟩

/-- Witness for `success_emits_final_progress` on a concrete run. -/
theorem success_emits_final_progress_witness :
    ∃ E, (workerRun (fun _ => false) true [pys "[download] 50%"] 0
        (pys "/tmp/v.mp4") 3 (pys "v.mp4")).1
        = E ++ [Sig.progress 100 [] [], Sig.finished (pys "/tmp/v.mp4") 3,
            Sig.logComplete (pys "v.mp4") 3]
      ∧ (workerRun (fun _ => false) true [pys "[download] 50%"] 0
          (pys "/tmp/v.mp4") 3 (pys "v.mp4")).2 = Outcome.succeeded :=
  success_emits_final_progress (fun _ => false) [pys "[download] 50%"]
    (pys "/tmp/v.mp4") 3 (pys "v.mp4") (fun _ => rfl)

/-- C4: if the cancellation flag is already set before any output line is
consumed, the job ends Cancelled and the `download_finished` signal is
never emitted, for every output and exit code. -/
theorem cancel_before_output (cancel : Nat → Bool) (lines : List PyStr)
    (rc : Int) (path : PyStr) (size : ℚ) (name : PyStr)
    (hc : cancel 0 = true) :
    (workerRun cancel true lines rc path size name).2 = Outcome.cancelled ∧
    ∀ e ∈ (workerRun cancel true lines rc path size name).1,
      isFinished e = false := by
  unfold workerRun
  rw [if_neg (by simp)]
  cases lines with
  | nil =>
    rw [processLines_nil]
    unfold workerRunAfter
    rw [if_neg (by simp), if_pos (by simpa using hc)]
    refine ⟨rfl, ?_⟩
    intro e he
    rw [List.mem_singleton.mp he]
    rfl
  | cons l rest =>
    rw [processLines_cons, if_pos hc]
    unfold workerRunAfter
    rw [if_pos rfl]
    refine ⟨rfl, ?_⟩
    intro e he
    have he2 : e = Sig.logStarting name ∨ e = Sig.logCancelled := by
      simpa using he
    rcases he2 with rfl | rfl <;> rfl

/-- Witness for `cancel_before_output` on a concrete run. -/
theorem cancel_before_output_witness :
    (workerRun (fun _ => true) true [pys "[download] 50%"] 0
        (pys "/tmp/v.mp4") 3 (pys "v.mp4")).2 = Outcome.cancelled ∧
    ∀ e ∈ (workerRun (fun _ => true) true [pys "[download] 50%"] 0
        (pys "/tmp/v.mp4") 3 (pys "v.mp4")).1, isFinished e = false :=
  cancel_before_output (fun _ => true) [pys "[download] 50%"] 0
    (pys "/tmp/v.mp4") 3 (pys "v.mp4") rfl

/-! ## `DownloadManager` (`src/download_manager.py`) -/

/-- The constructor arguments of a `DownloadWorker`, plus its `_cancelled`
flag. -/
structure WorkerParams where
  url : PyStr
  format_type : PyStr
  quality : PyStr
  output_path : PyStr
  filename : PyStr
  cancelled : Bool
deriving DecidableEq

/-- The mutable state of a `DownloadManager`: `_thread` (abstracted to an
identifier), `_worker`, `_is_downloading`. -/
structure ManagerState where
  thread : Option Nat
  worker : Option WorkerParams
  is_downloading : Bool
deriving DecidableEq

namespace DownloadManager

/-- `DownloadManager.start_download`: returns the boolean result and the
new manager state.  A fresh thread is modelled by the identifier `0`. -/
def start_download (s : ManagerState)
    (url format_type quality output_path filename : PyStr) :
    Bool × ManagerState :=
  if s.is_downloading then (false, s)
  else
    (true,
      { thread := some 0,
        worker := some ⟨url, format_type, quality, output_path, filename, false⟩,
        is_downloading := true })

end DownloadManager

/-- C5: a `start_download` call while a job is running returns `False` and
leaves the thread, the worker and the downloading flag untouched. -/
theorem start_download_rejected_when_running (s : ManagerState)
    (url format_type quality output_path filename : PyStr)
    (h : s.is_downloading = true) :
    DownloadManager.start_download s url format_type quality output_path filename
        = (false, s)
      ∧ (DownloadManager.start_download s url format_type quality output_path
          filename).2.thread = s.thread
      ∧ (DownloadManager.start_download s url format_type quality output_path
          filename).2.worker = s.worker
      ∧ (DownloadManager.start_download s url format_type quality output_path
          filename).2.is_downloading = s.is_downloading := by
  have hmain :
      DownloadManager.start_download s url format_type quality output_path
        filename = (false, s) := by
    unfold DownloadManager.start_download
    rw [if_pos h]
  exact ⟨hmain, by rw [hmain], by rw [hmain], by rw [hmain]⟩

/-- Witness for `start_download_rejected_when_running` on a concrete
running state. -/
theorem start_download_rejected_when_running_witness :
    DownloadManager.start_download
        ⟨some 7, some ⟨pys "https://yt/w1", pys "video", pys "720p",
          pys "/downloads", pys "a.mp4", false⟩, true⟩
        (pys "https://yt/w2") (pys "audio") (pys "best") (pys "/tmp")
        (pys "b.mp3")
      = (false,
        ⟨some 7, some ⟨pys "https://yt/w1", pys "video", pys "720p",
          pys "/downloads", pys "a.mp4", false⟩, true⟩) :=
  (start_download_rejected_when_running
    ⟨some 7, some ⟨pys "https://yt/w1", pys "video", pys "720p",
      pys "/downloads", pys "a.mp4", false⟩, true⟩
    (pys "https://yt/w2") (pys "audio") (pys "best") (pys "/tmp")
    (pys "b.mp3") rfl).1

/-! ## The transcriber (`src/transcriber.py`) -/

namespace Transcriber

/-- `CHUNK_DURATION_SECONDS` (600 s = 10 min per chunk). -/
def CHUNK_DURATION_SECONDS : ℚ := 600

/-- `MAX_RETRIES`. -/
def MAX_RETRIES : Nat := 5

/-- `RATE_LIMIT_BUFFER_SECONDS`. -/
def RATE_LIMIT_BUFFER_SECONDS : ℚ := 10

/-- Python `int()` on a float/rational value: truncation toward zero. -/
def pyInt (q : ℚ) : Int := if 0 ≤ q then ⌊q⌋ else ⌈q⌉

/-- One planned audio chunk: the `-ss` start offset and `-t` duration of
its ffmpeg extraction command. -/
structure AudioChunk where
  start : ℚ
  duration : ℚ
deriving DecidableEq

/-- `num_chunks = int(duration_seconds / CHUNK_DURATION_SECONDS) + 1` of
`Transcriber._extract_chunked_audio`. -/
def numChunksInt (d : ℚ) : Int := pyInt (d / CHUNK_DURATION_SECONDS) + 1

/-- The chunk plan of `Transcriber._extract_chunked_audio`: for each
`i in range(num_chunks)`, a window starting at
`i * CHUNK_DURATION_SECONDS` of length `CHUNK_DURATION_SECONDS`
(`range` of a non-positive count is empty, hence `Int.toNat`). -/
def extractChunkPlan (d : ℚ) : List AudioChunk :=
  (List.range (numChunksInt d).toNat).map
    (fun i : Nat => ⟨(i : ℚ) * CHUNK_DURATION_SECONDS, CHUNK_DURATION_SECONDS⟩)

/-! ### `Transcriber._parse_rate_limit_wait`

The three regexes `try again in (\d+)m(\d+(?:\.\d+)?)s`,
`try again in (\d+(?:\.\d+)?)s` and `try again in (\d+)m`, as
deterministic matchers (each quantifier run is forced, as the token after
it can never match a character of its class). -/

/-- Match `(\d+)m(\d+(?:\.\d+)?)s` after the `try again in ` literal:
returns minutes digits, seconds integer digits, optional fraction digits. -/
def matchWaitMS (cs : List Char) :
    Option (List Char × List Char × Option (List Char)) :=
  let d1 := cs.takeWhile Char.isDigit
  if d1 = [] then none
  else
    match cs.dropWhile Char.isDigit with
    | [] => none
    | c :: r2 =>
      if c = 'm' then
        let d2 := r2.takeWhile Char.isDigit
        if d2 = [] then none
        else
          match r2.dropWhile Char.isDigit with
          | [] => none
          | c2 :: r3 =>
            if c2 = 's' then some (d1, d2, none)
            else if c2 = '.' then
              let d3 := r3.takeWhile Char.isDigit
              if d3 = [] then none
              else
                match r3.dropWhile Char.isDigit with
                | [] => none
                | c3 :: _ => if c3 = 's' then some (d1, d2, some d3) else none
            else none
      else none

/-- Match `(\d+(?:\.\d+)?)s` after the `try again in ` literal. -/
def matchWaitS (cs : List Char) : Option (List Char × Option (List Char)) :=
  let d1 := cs.takeWhile Char.isDigit
  if d1 = [] then none
  else
    match cs.dropWhile Char.isDigit with
    | [] => none
    | c :: r2 =>
      if c = 's' then some (d1, none)
      else if c = '.' then
        let d2 := r2.takeWhile Char.isDigit
        if d2 = [] then none
        else
          match r2.dropWhile Char.isDigit with
          | [] => none
          | c2 :: _ => if c2 = 's' then some (d1, some d2) else none
      else none

/-- Match `(\d+)m` after the `try again in ` literal. -/
def matchWaitM (cs : List Char) : Option (List Char) :=
  let d1 := cs.takeWhile Char.isDigit
  if d1 = [] then none
  else
    match cs.dropWhile Char.isDigit with
    | [] => none
    | c :: _ => if c = 'm' then some d1 else none

/-- `re.search` of the minutes-and-seconds pattern. -/
def searchWaitMS : List Char → Option (List Char × List Char × Option (List Char))
  | [] => none
  | c :: rest =>
    match (if List.isPrefixOf (pys "try again in ") (c :: rest) then
        matchWaitMS ((c :: rest).drop 13)
      else none) with
    | some r => some r
    | none => searchWaitMS rest

/-- `re.search` of the seconds pattern. -/
def searchWaitS : List Char → Option (List Char × Option (List Char))
  | [] => none
  | c :: rest =>
    match (if List.isPrefixOf (pys "try again in ") (c :: rest) then
        matchWaitS ((c :: rest).drop 13)
      else none) with
    | some r => some r
    | none => searchWaitS rest

/-- `re.search` of the minutes pattern. -/
def searchWaitM : List Char → Option (List Char)
  | [] => none
  | c :: rest =>
    match (if List.isPrefixOf (pys "try again in ") (c :: rest) then
        matchWaitM ((c :: rest).drop 13)
      else none) with
    | some r => some r
    | none => searchWaitM rest

/-- Python `float()` of an integer part plus optional fraction digits. -/
def ratOfParts (ip : List Char) (fp : Option (List Char)) : ℚ :=
  (natOfDigits ip : ℚ) +
    (match fp with
      | none => 0
      | some f => (natOfDigits f : ℚ) / ((10 : ℚ) ^ f.length))

/-- `Transcriber._parse_rate_limit_wait`: seconds to wait, 300 when no
pattern matches. -/
def parseRateLimitWait (msg : PyStr) : ℚ :=
  match searchWaitMS msg with
  | some (m, si, sf) => (natOfDigits m : ℚ) * 60 + ratOfParts si sf
  | none =>
    match searchWaitS msg with
    | some (si, sf) => ratOfParts si sf
    | none =>
      match searchWaitM msg with
      | some m => (natOfDigits m : ℚ) * 60
      | none => 300

/-! ### The retry loop of `Transcriber._transcribe_chunks` -/

/-- Result of one `Transcriber._transcribe_groq` call. -/
inductive TResult where
  | ok (text : PyStr)
  | err (msg : PyStr)
deriving DecidableEq

/-- `"Rate limit" in error_msg or "rate limit" in error_msg.lower()`. -/
def isRateLimitError (msg : PyStr) : Bool :=
  pyIn (pys "Rate limit") msg || pyIn (pys "rate limit") (pyLower msg)

/-- The `for retry in range(MAX_RETRIES)` loop of
`Transcriber._transcribe_chunks`, for one chunk: `attempt retry` is the
result of the API call on iteration `retry`.  The loop continues (after
sleeping) only on a rate-limit error with a *truthy* parsed wait
(`if wait_time and retry < MAX_RETRIES - 1`), i.e. a nonzero wait.
Returns the final result and the number of attempts made. -/
def retryGo (attempt : Nat → TResult) : Nat → Nat → TResult × Nat
  | retry, 0 => (TResult.err [], retry)
  | retry, fuel + 1 =>
    match attempt retry with
    | TResult.ok t => (TResult.ok t, retry + 1)
    | TResult.err m =>
      if isRateLimitError m ∧ parseRateLimitWait m ≠ 0 ∧ retry < MAX_RETRIES - 1
      then retryGo attempt (retry + 1) fuel
      else (TResult.err m, retry + 1)

/-- The retry loop started at `retry = 0` with its `MAX_RETRIES`
iteration budget. -/
def transcribeChunkRetry (attempt : Nat → TResult) : TResult × Nat :=
  retryGo attempt 0 MAX_RETRIES

/-! ### `Transcriber.check_resume_available` -/

/-- The fields of the progress JSON the resume check reads
(`data.get(..., default)` values). -/
structure TranscriptionProgressData where
  completed_chunks : Int
  total_chunks : Int
  include_timestamps : Bool
  chunk_paths : List PyStr
deriving DecidableEq

/-- The dictionary `check_resume_available` returns. -/
structure ResumeInfo where
  completed_chunks : Int
  total_chunks : Int
  include_timestamps : Bool
deriving DecidableEq

/-- `Transcriber.check_resume_available`, with the filesystem passed
explicitly: whether the progress file exists, the result of parsing it
(`none` models a `json.load` failure, caught by the `except`), and the
existence test for paths.  The stale-file unlink is a side effect not
reflected in the return value. -/
def check_resume_available (fileExists : PyStr → Bool)
    (progressFileExists : Bool)
    (parsed : Option TranscriptionProgressData) : Option ResumeInfo :=
  if ¬ progressFileExists then none
  else
    match parsed with
    | none => none
    | some data =>
      if data.chunk_paths.all fileExists then
        some ⟨data.completed_chunks, data.total_chunks, data.include_timestamps⟩
      else none

end Transcriber

/-- C8: the rate-limit wait parser on the spec's examples, and the fixed
300 s fallback whenever none of the three patterns matches. -/
theorem parse_rate_limit_wait_spec :
    Transcriber.parseRateLimitWait (pys "try again in 4m12.5s") = 505 / 2
    ∧ Transcriber.parseRateLimitWait (pys "try again in 30s") = 30
    ∧ Transcriber.parseRateLimitWait (pys "try again in 2m") = 120
    ∧ ∀ msg : PyStr, Transcriber.searchWaitMS msg = none →
        Transcriber.searchWaitS msg = none →
        Transcriber.searchWaitM msg = none →
        Transcriber.parseRateLimitWait msg = 300 := by
  refine ⟨?_, ?_, ?_, ?_⟩
  · have h : Transcriber.searchWaitMS (pys "try again in 4m12.5s")
        = some (['4'], ['1', '2'], some ['5']) := by decide
    unfold Transcriber.parseRateLimitWait Transcriber.ratOfParts
    rw [h]
    dsimp only []
    rw [show natOfDigits ['4'] = 4 from by decide,
      show natOfDigits ['1', '2'] = 12 from by decide,
      show natOfDigits ['5'] = 5 from by decide]
    norm_num
  · have h1 : Transcriber.searchWaitMS (pys "try again in 30s") = none := by
      decide
    have h2 : Transcriber.searchWaitS (pys "try again in 30s")
        = some (['3', '0'], none) := by decide
    unfold Transcriber.parseRateLimitWait Transcriber.ratOfParts
    rw [h1, h2]
    dsimp only []
    rw [show natOfDigits ['3', '0'] = 30 from by decide]
    norm_num
  · have h1 : Transcriber.searchWaitMS (pys "try again in 2m") = none := by
      decide
    have h2 : Transcriber.searchWaitS (pys "try again in 2m") = none := by
      decide
    have h3 : Transcriber.searchWaitM (pys "try again in 2m") = some ['2'] := by
      decide
    unfold Transcriber.parseRateLimitWait
    rw [h1, h2, h3]
    dsimp only []
    rw [show natOfDigits ['2'] = 2 from by decide]
    norm_num
  · intro msg h1 h2 h3
    unfold Transcriber.parseRateLimitWait
    rw [h1, h2, h3]

/-- Witness for `parse_rate_limit_wait_spec` on an unparseable message. -/
theorem parse_rate_limit_wait_spec_witness :
    Transcriber.parseRateLimitWait (pys "quota exceeded, no wait hint") = 300 :=
  parse_rate_limit_wait_spec.2.2.2 (pys "quota exceeded, no wait hint")
    (by decide) (by decide) (by decide)

theorem retryGo_step (attempt : Nat → Transcriber.TResult) (retry fuel : Nat) :
    Transcriber.retryGo attempt retry (fuel + 1) =
      match attempt retry with
      | Transcriber.TResult.ok t => (Transcriber.TResult.ok t, retry + 1)
      | Transcriber.TResult.err m =>
        if Transcriber.isRateLimitError m ∧ Transcriber.parseRateLimitWait m ≠ 0
            ∧ retry < Transcriber.MAX_RETRIES - 1
        then Transcriber.retryGo attempt (retry + 1) fuel
        else (Transcriber.TResult.err m, retry + 1) := rfl

/-- C10: a rate-limit error whose parsed wait is exactly 0 is not retried:
the Python truthiness test `if wait_time and ...` treats a 0.0-second wait
like an absent one, so the loop breaks after the first attempt even though
retries remain. -/
theorem zero_wait_no_retry (attempt : Nat → Transcriber.TResult) (m : PyStr)
    (h0 : attempt 0 = Transcriber.TResult.err m)
    (_hrl : Transcriber.isRateLimitError m = true)
    (hw : Transcriber.parseRateLimitWait m = 0) :
    Transcriber.transcribeChunkRetry attempt = (Transcriber.TResult.err m, 1)
    ∧ 1 < Transcriber.MAX_RETRIES := by
  refine ⟨?_, by decide⟩
  unfold Transcriber.transcribeChunkRetry
  rw [show Transcriber.MAX_RETRIES = 4 + 1 from rfl, retryGo_step, h0]
  dsimp only []
  rw [if_neg (fun hand => hand.2.1 hw)]

/-- Witness for `zero_wait_no_retry`: a `"try again in 0s"` rate-limit
message fails the chunk on the first attempt even though the next attempt
would succeed. -/
theorem zero_wait_no_retry_witness :
    Transcriber.transcribeChunkRetry (fun n =>
        if n = 0
        then Transcriber.TResult.err
          (pys "Rate limit reached. Please try again in 0s")
        else Transcriber.TResult.ok (pys "text"))
      = (Transcriber.TResult.err
          (pys "Rate limit reached. Please try again in 0s"), 1)
    ∧ 1 < Transcriber.MAX_RETRIES := by
  have hw : Transcriber.parseRateLimitWait
      (pys "Rate limit reached. Please try again in 0s") = 0 := by
    have h1 : Transcriber.searchWaitMS
        (pys "Rate limit reached. Please try again in 0s") = none := by decide
    have h2 : Transcriber.searchWaitS
        (pys "Rate limit reached. Please try again in 0s")
        = some (['0'], none) := by decide
    unfold Transcriber.parseRateLimitWait Transcriber.ratOfParts
    rw [h1, h2]
    dsimp only []
    rw [show natOfDigits ['0'] = 0 from by decide]
    norm_num
  exact zero_wait_no_retry _ _ rfl (by decide) hw

/-- C6: for a positive duration the chunk plan has exactly
`floor(duration / window) + 1` chunks, chunk `i` starts at `i * window`
with the fixed window duration (hence consecutive windows are contiguous
and non-overlapping), and the windows cover the whole duration. -/
theorem chunk_plan_covers (d : ℚ) (hd : 0 < d) :
    (Transcriber.extractChunkPlan d).length = (⌊d / 600⌋).toNat + 1
    ∧ (∀ i : Nat, i < (Transcriber.extractChunkPlan d).length →
        (Transcriber.extractChunkPlan d)[i]?
          = some ⟨(i : ℚ) * 600, 600⟩)
    ∧ (∀ i : Nat, i + 1 < (Transcriber.extractChunkPlan d).length →
        ∃ c1 c2 : Transcriber.AudioChunk,
          (Transcriber.extractChunkPlan d)[i]? = some c1
          ∧ (Transcriber.extractChunkPlan d)[i + 1]? = some c2
          ∧ c2.start = c1.start + c1.duration)
    ∧ (∀ t : ℚ, 0 ≤ t → t ≤ d →
        ∃ c ∈ Transcriber.extractChunkPlan d,
          c.start ≤ t ∧ t < c.start + c.duration) := by
  have hdiv : (0 : ℚ) ≤ d / 600 := by positivity
  have hfl : (0 : ℤ) ≤ ⌊d / 600⌋ := Int.floor_nonneg.mpr hdiv
  have hn : (Transcriber.numChunksInt d).toNat = (⌊d / 600⌋).toNat + 1 := by
    unfold Transcriber.numChunksInt Transcriber.pyInt
      Transcriber.CHUNK_DURATION_SECONDS
    rw [if_pos hdiv]
    omega
  have hlen : (Transcriber.extractChunkPlan d).length
      = (⌊d / 600⌋).toNat + 1 := by
    unfold Transcriber.extractChunkPlan
    rw [List.length_map, List.length_range, hn]
  have hget : ∀ i : Nat, i < (Transcriber.extractChunkPlan d).length →
      (Transcriber.extractChunkPlan d)[i]? = some ⟨(i : ℚ) * 600, 600⟩ := by
    intro i hi
    unfold Transcriber.extractChunkPlan at hi ⊢
    rw [List.length_map, List.length_range] at hi
    rw [List.getElem?_map, List.getElem?_range hi]
    rfl
  refine ⟨hlen, hget, ?_, ?_⟩
  · intro i hi
    refine ⟨⟨(i : ℚ) * 600, 600⟩, ⟨((i + 1 : Nat) : ℚ) * 600, 600⟩,
      hget i (by omega), hget (i + 1) hi, ?_⟩
    show ((i + 1 : Nat) : ℚ) * 600 = (i : ℚ) * 600 + 600
    push_cast
    ring
  · intro t ht hle
    have htd : (0 : ℚ) ≤ t / 600 := by positivity
    have htfl : (0 : ℤ) ≤ ⌊t / 600⌋ := Int.floor_nonneg.mpr htd
    have hmono : ⌊t / 600⌋ ≤ ⌊d / 600⌋ :=
      Int.floor_le_floor ((div_le_div_iff_of_pos_right (by norm_num)).mpr hle)
    have hcast : ((⌊t / 600⌋).toNat : ℚ) = (⌊t / 600⌋ : ℚ) := by
      rw [← Int.cast_natCast]
      exact congrArg _ (Int.toNat_of_nonneg htfl)
    refine ⟨⟨((⌊t / 600⌋).toNat : ℚ) * 600, 600⟩, ?_, ?_, ?_⟩
    · unfold Transcriber.extractChunkPlan
      rw [List.mem_map]
      refine ⟨(⌊t / 600⌋).toNat, List.mem_range.mpr ?_, rfl⟩
      rw [hn]
      omega
    · show ((⌊t / 600⌋).toNat : ℚ) * 600 ≤ t
      rw [hcast]
      have h1 : (⌊t / 600⌋ : ℚ) ≤ t / 600 := Int.floor_le _
      calc (⌊t / 600⌋ : ℚ) * 600 ≤ t / 600 * 600 :=
            mul_le_mul_of_nonneg_right h1 (by norm_num)
        _ = t := by field_simp
    · show t < ((⌊t / 600⌋).toNat : ℚ) * 600 + 600
      rw [hcast]
      have h2 : t / 600 < (⌊t / 600⌋ : ℚ) + 1 := Int.lt_floor_add_one _
      have h3 : t < ((⌊t / 600⌋ : ℚ) + 1) * 600 := by
        calc t = t / 600 * 600 := by field_simp
          _ < ((⌊t / 600⌋ : ℚ) + 1) * 600 :=
            mul_lt_mul_of_pos_right h2 (by norm_num)
      nlinarith [h3]

/-- Witness for `chunk_plan_covers` at the concrete duration 1500 s. -/
theorem chunk_plan_covers_witness :
    (0 : ℚ) < 1500
    ∧ ((Transcriber.extractChunkPlan 1500).length
        = (⌊(1500 : ℚ) / 600⌋).toNat + 1
      ∧ (∀ i : Nat, i < (Transcriber.extractChunkPlan 1500).length →
          (Transcriber.extractChunkPlan 1500)[i]?
            = some ⟨(i : ℚ) * 600, 600⟩)
      ∧ (∀ i : Nat, i + 1 < (Transcriber.extractChunkPlan 1500).length →
          ∃ c1 c2 : Transcriber.AudioChunk,
            (Transcriber.extractChunkPlan 1500)[i]? = some c1
            ∧ (Transcriber.extractChunkPlan 1500)[i + 1]? = some c2
            ∧ c2.start = c1.start + c1.duration)
      ∧ (∀ t : ℚ, 0 ≤ t → t ≤ 1500 →
          ∃ c ∈ Transcriber.extractChunkPlan 1500,
            c.start ≤ t ∧ t < c.start + c.duration)) :=
  ⟨by norm_num, chunk_plan_covers 1500 (by norm_num)⟩

/-- C7: the resume check returns no resume info whenever some recorded
chunk file is missing (even on a well-formed record), and any returned
resume info implies every recorded chunk file exists. -/
theorem check_resume_requires_chunks (fileExists : PyStr → Bool) :
    (∀ (pfe : Bool) (data : Transcriber.TranscriptionProgressData) (p : PyStr),
      p ∈ data.chunk_paths → fileExists p = false →
      Transcriber.check_resume_available fileExists pfe (some data) = none)
    ∧ (∀ (pfe : Bool) (pd : Option Transcriber.TranscriptionProgressData)
        (info : Transcriber.ResumeInfo),
      Transcriber.check_resume_available fileExists pfe pd = some info →
      ∃ data, pd = some data ∧ ∀ p ∈ data.chunk_paths, fileExists p = true) := by
  constructor
  · intro pfe data p hp hmiss
    unfold Transcriber.check_resume_available
    by_cases hpfe : pfe
    · rw [if_neg (by simp [hpfe])]
      dsimp only []
      rw [if_neg]
      intro hall
      have := List.all_eq_true.mp hall p hp
      rw [hmiss] at this
      exact Bool.false_ne_true this
    · rw [if_pos (by simp [hpfe])]
  · intro pfe pd info h
    unfold Transcriber.check_resume_available at h
    split at h
    · exact absurd h (by simp)
    · cases pd with
      | none => exact absurd h (by simp [Transcriber.check_resume_available])
      | some data =>
        refine ⟨data, rfl, ?_⟩
        dsimp only [] at h
        split at h
        case isTrue hall => exact fun p hp => List.all_eq_true.mp hall p hp
        case isFalse => exact absurd h (by simp)

/-- Witness for `check_resume_requires_chunks`: a well-formed record with a
missing chunk yields no resume info; a record whose chunks all exist yields
one with every path present. -/
theorem check_resume_requires_chunks_witness :
    Transcriber.check_resume_available (fun _ => false) true
        (some ⟨2, 5, false, [pys "/tmp/chunk_000.mp3"]⟩) = none
    ∧ ∃ data,
        (some (⟨2, 5, false, [pys "/tmp/chunk_000.mp3"]⟩ :
          Transcriber.TranscriptionProgressData)) = some data
        ∧ ∀ p ∈ data.chunk_paths, (fun _ => true : PyStr → Bool) p = true := by
  constructor
  · exact (check_resume_requires_chunks (fun _ => false)).1 true
      ⟨2, 5, false, [pys "/tmp/chunk_000.mp3"]⟩ (pys "/tmp/chunk_000.mp3")
      (by simp) rfl
  · exact (check_resume_requires_chunks (fun _ => true)).2 true
      (some ⟨2, 5, false, [pys "/tmp/chunk_000.mp3"]⟩) ⟨2, 5, false⟩ rfl

/-! ## Validation of the embedding on concrete inputs

Small concrete evaluations of the embedded functions, matching the
behaviour of the Python originals (notably `re.search` of the two progress
patterns on edge-case lines). -/

section Examples

example : pys "ab" = ['a', 'b'] := by decide

example : pySplitlines (pys "a\nb") = [pys "a", pys "b"] := by decide

example : pySplitlines (pys "a\x0d\nb\n") = [pys "a", pys "b"] := by decide

example : pySplitlines (pys "a\n\nb") = [pys "a", [], pys "b"] := by decide

example : pyStrip (pys "  hi\n") = pys "hi" := by decide

example : Proofreader.splitIntoChunks (pys "hello") = [pys "hello"] := by decide

example :
    parseProgressLine (pys "[download]  45.2% of ~48.00MiB at  2.30MiB/s ETA 00:12")
      = some ⟨45, pys "2.30MiB/s", pys "00:12"⟩ := by decide

example : parseProgressLine (pys "[download] 100%") = some ⟨100, [], []⟩ := by decide

example :
    parseProgressLine (pys "[download] 100.0% of 10MiB at 12/s ETA 1:2")
      = some ⟨100, pys "12/s", pys "1:2"⟩ := by decide

example :
    parseProgressLine (pys "[download]  7.5% of x at Mi/s ETA 0:1")
      = some ⟨7, [], []⟩ := by decide

example :
    parseProgressLine (pys "[download] 12.% at 5 MiB/s ETA 00:3")
      = some ⟨12, pys "5 MiB/s", pys "00:3"⟩ := by decide

example : parseProgressLine (pys "[download] 1.2.3% at 2MiB/s ETA 0:1") = none := by
  decide

example :
    parseProgressLine (pys "[download] 45% at 2.5 KiB/s and more ETA 00:10 tail")
      = some ⟨45, pys "2.5 KiB/s", pys "00:10"⟩ := by decide

example :
    parseProgressLine (pys "[download] bad then [download]  3% at 9B/s ETA 9:9")
      = some ⟨3, pys "9B/s", pys "9:9"⟩ := by decide

example :
    parseProgressLine (pys "[download] 45% at .5B/s ETA 1:1")
      = some ⟨45, pys ".5B/s", pys "1:1"⟩ := by decide

example :
    parseProgressLine (pys "[download] 45% at 5B/sx ETA 1:1")
      = some ⟨45, pys "5B/s", pys "1:1"⟩ := by decide

example : parseProgressLine (pys "no marker 45%") = none := by decide

end Examples
